import Mathlib

/-!
Verification of the camera chain sensor model from the pr2_calibration_estimation
package (file sensors/camera_chain_sensor.py).  Matrices are modelled as lists of
rows over the rationals; the numpy operations the code uses (diag, matrix
multiplication, reshape/flatten, elementwise subtraction with row broadcasting)
are embedded with explicit dimension checks, returning none exactly where numpy
raises a shape error.  Python assert statements are modelled by Option results:
a failing assert yields none.
-/

namespace CameraPose

/-- A matrix is a list of rows of rationals. -/
abbrev Mat := List (List ℚ)

/-- Number of rows, mirroring the numpy attribute shape zero. -/
def npRows (m : Mat) : ℕ := m.length

/-- Number of columns, mirroring the numpy attribute shape one.  Numpy matrices
are rectangular, so the length of the first row (zero for the empty matrix)
represents the column count. -/
def npCols (m : Mat) : ℕ := (m.headD []).length

/-- Row-major flattening, mirroring numpy reshape to a single axis. -/
def npFlatten (m : Mat) : List ℚ := m.flatten

/-- Dot product of two lists. -/
def dotProd (u v : List ℚ) : ℚ := (List.zipWith (· * ·) u v).sum

/-- Column j of a matrix, entries read with a default of zero. -/
def npCol (m : Mat) (j : ℕ) : List ℚ := m.map (fun r => r.getD j 0)

/-- Matrix product with the numpy alignment check: the inner dimensions must
agree, otherwise numpy raises a ValueError, modelled as none. -/
def npMul (a b : Mat) : Option Mat :=
  if npCols a = b.length then
    some (a.map (fun ra => (List.range (npCols b)).map (fun j => dotProd ra (npCol b j))))
  else none

/-- Transpose of a matrix. -/
def npTranspose (m : Mat) : Mat :=
  (List.range (npCols m)).map (fun j => npCol m j)

/-- Numpy diag applied to a one-dimensional argument: builds the square
diagonal matrix. -/
def npDiagOfList (v : List ℚ) : Mat :=
  (List.range v.length).map (fun i =>
    (List.range v.length).map (fun j => if i = j then v.getD i 0 else 0))

/-- Numpy diag applied to a two-dimensional argument: extracts the diagonal,
of length the minimum of the two dimensions. -/
def npDiagOfMat (m : Mat) : List ℚ :=
  (List.range (min (npRows m) (npCols m))).map (fun i => (m.getD i []).getD i 0)

/-- Elementwise subtraction with the numpy row-broadcasting rule: equal row
counts subtract rowwise; a single-row operand is broadcast against the other;
any other row-count combination raises, modelled as none. -/
def npSub (a b : Mat) : Option Mat :=
  if a.length = b.length then
    some (List.zipWith (fun ra rb => List.zipWith (fun x y => x - y) ra rb) a b)
  else if b.length = 1 then
    some (a.map (fun ra => List.zipWith (fun x y => x - y) ra (b.getD 0 [])))
  else if a.length = 1 then
    some (b.map (fun rb => List.zipWith (fun x y => x - y) (a.getD 0 []) rb))
  else none

/-- Elementwise addition of two matrices of the same shape. -/
def npAdd (a b : Mat) : Mat :=
  List.zipWith (fun ra rb => List.zipWith (fun x y => x + y) ra rb) a b

/-! ## Data model

The records bound to a sensor at construction time, translated from the
constructor of CameraChainSensor and the message types it reads. -/

/-- One observed 2-D image point. -/
structure ImagePoint where
  x : ℚ
  y : ℚ
deriving DecidableEq

/-- Camera observation: camera id plus the ordered observed image points. -/
structure CameraObservation where
  camera_id : String
  image_points : List ImagePoint
deriving DecidableEq

/-- Chain observation: chain id plus the joint-state position vector. -/
structure ChainObservation where
  chain_id : String
  positions : List ℚ
deriving DecidableEq

/-- The chain part of a sensor configuration entry. -/
structure ChainConfig where
  chain_id : String
  before_chain : List String
  after_chain : List String
deriving DecidableEq

/-- One entry of the valid-configuration catalog. -/
structure SensorConfig where
  camera_id : String
  chain : ChainConfig
deriving DecidableEq

/-- A camera chain sensor as built by the bundler: one configuration entry
bound to one camera observation and one chain observation. -/
structure CameraChainSensor where
  config : SensorConfig
  mCam : CameraObservation
  mChain : ChainObservation
deriving DecidableEq

/-- Sensor id, set in the constructor from the camera id of the configuration. -/
def CameraChainSensor.sensor_id (s : CameraChainSensor) : String :=
  s.config.camera_id

/-- Modelled from the spec: the view of the shared robot parameters that
update_config resolves for a sensor.  The repository files full_chain.py and
the camera and chain parameter classes are not under src, so their contribution
is modelled abstractly: the per-joint angle variances and the link count of the
chain, the pixel noise variances of the rectified camera, and the composition
of forward kinematics with camera projection as an injected function from a
joint position vector and a target point matrix to the expected pixel matrix
(the spec states it returns an N by 2 structure for a 4 by N target input). -/
structure RobotParamsView where
  covJointAngles : List ℚ
  numLinks : ℕ
  covU : ℚ
  covV : ℚ
  computeExpectedFn : List ℚ → Mat → Mat

/-! ## Sensor operations -/

/-- Observed measurement: the N by 2 matrix of image points, row i holding the
x and then the y coordinate of point i, in observation order. -/
def get_measurement (s : CameraChainSensor) : Mat :=
  s.mCam.image_points.map (fun p => [p.x, p.y])

/-- Residual length: twice the number of observed image points. -/
def get_residual_length (s : CameraChainSensor) : ℕ :=
  s.mCam.image_points.length * 2

/-- Expected pixel matrix for the given target points, using the bound chain
state, via the injected forward-kinematics-plus-projection function. -/
def compute_expected (s : CameraChainSensor) (v : RobotParamsView) (target_pts : Mat) : Mat :=
  v.computeExpectedFn s.mChain.positions target_pts

/-- The three assert statements guarding compute_residual, in source order:
the observed matrix has 2 columns, the expected matrix has 2 columns, and the
row count of the observed matrix equals the row count of the observed matrix
(the third check compares a value with itself, exactly as the source does). -/
def residualAsserts (z_mat h_mat : Mat) : Bool :=
  npCols z_mat == 2 && npCols h_mat == 2 && npRows z_mat == npRows z_mat

/-- Residual: expected minus observed, flattened row-major.  A failing assert
or a numpy shape error yields none. -/
def compute_residual (s : CameraChainSensor) (v : RobotParamsView) (target_pts : Mat) :
    Option (List ℚ) :=
  let z_mat := get_measurement s
  let h_mat := compute_expected s v target_pts
  if residualAsserts z_mat h_mat then (npSub h_mat z_mat).map npFlatten
  else none

/-! ## Covariance

The finite-difference loop of compute_cov mutates a scratch JointState x whose
position list is reassigned to a fresh copy of the stored observation positions
on every iteration; the embedding threads both lists explicitly so that the
mutation targets are visible. -/

/-- The fixed finite-difference step of compute_cov. -/
def epsCov : ℚ := 1 / 100000000

/-- The two position lists live during compute_cov: the position list of the
bound chain observation, and the position list of the scratch JointState x. -/
structure CovLoopState where
  stored : List ℚ
  x : List ℚ
deriving DecidableEq

/-- One iteration of the finite-difference loop: reassign the scratch position
list to a fresh copy of the stored positions, add epsilon to entry i of the
copy, evaluate the expected pixels there, and append the Jacobian row
(perturbed minus baseline, divided by epsilon). -/
def covLoopStep (v : RobotParamsView) (target_pts : Mat) (f0 : List ℚ)
    (acc : CovLoopState × List (List ℚ)) (i : ℕ) : CovLoopState × List (List ℚ) :=
  let st := acc.1
  let x1 := st.stored
  let x2 := x1.set i (x1.getD i 0 + epsCov)
  let fTest := npFlatten (v.computeExpectedFn x2 target_pts)
  (⟨st.stored, x2⟩, acc.2 ++ [List.zipWith (fun a b => (a - b) / epsCov) fTest f0])

/-- Camera-noise matrix as filled by the loop of compute_cov over a zero matrix
of the given shape: for k below half the row count, entry (2k, 2k) is the u
pixel variance and entry (2k+1, 2k+1) the v pixel variance. -/
def camNoiseMat (rows cols : ℕ) (u v : ℚ) : Mat :=
  (List.range rows).map (fun i => (List.range cols).map (fun j =>
    if i = j ∧ i < 2 * (rows / 2) then (if i % 2 = 0 then u else v) else 0))

/-- Product stage of compute_cov.  Mirrors the source: cov_angles is diag of
the joint angle variance list, and the chain covariance is the product of the
transpose of Jt, the numpy matrix of diag of cov_angles (a second diag
application, which extracts the variance list back and yields a matrix of one
row), and Jt; a numpy alignment failure in either product is none.  The camera
noise matrix, of the shape of the chain covariance, is added at the end. -/
def chainCovResult (Jt : Mat) (cov_list : List ℚ) (u v : ℚ) : Option Mat :=
  let cov_angles := npDiagOfList cov_list
  match npMul (npTranspose Jt) [npDiagOfMat cov_angles] with
  | none => none
  | some a =>
    match npMul a Jt with
    | none => none
    | some chain_cov =>
      some (npAdd chain_cov (camNoiseMat (npRows chain_cov) (npCols chain_cov) u v))

/-- Full compute_cov: builds the finite-difference Jacobian rows by folding the
loop body over the joint indices, then applies the product stage; the final
state of the two position lists is returned with the result. -/
def compute_cov_run (s : CameraChainSensor) (v : RobotParamsView) (target_pts : Mat) :
    CovLoopState × Option Mat :=
  let num_joints := s.mChain.positions.length
  let init : CovLoopState := ⟨s.mChain.positions, s.mChain.positions⟩
  let f0 := npFlatten (v.computeExpectedFn init.x target_pts)
  let res := (List.range num_joints).foldl (covLoopStep v target_pts f0) (init, [])
  (res.1, chainCovResult res.2 v.covJointAngles v.covU v.covV)

/-- Covariance of the measurement, none where numpy raises. -/
def compute_cov (s : CameraChainSensor) (v : RobotParamsView) (target_pts : Mat) :
    Option Mat :=
  (compute_cov_run s v target_pts).2

/-! ## Bundler -/

/-- One robot measurement: the camera observations and the chain observations. -/
structure RobotMeasurement where
  M_cam : List CameraObservation
  M_chain : List ChainObservation
deriving DecidableEq

/-- Translation of CameraChainBundler.build_blocks: for each catalog entry in
order, if its camera id occurs among the camera observations and its chain id
among the chain observations, bind the first matching observations into a
sensor; otherwise the entry contributes nothing. -/
def build_blocks (valid_configs : List SensorConfig) (M_robot : RobotMeasurement) :
    List CameraChainSensor :=
  valid_configs.filterMap (fun cur_config =>
    match M_robot.M_cam.find? (fun x => x.camera_id == cur_config.camera_id),
          M_robot.M_chain.find? (fun x => x.chain_id == cur_config.chain.chain_id) with
    | some mc, some mch => some ⟨cur_config, mc, mch⟩
    | _, _ => none)

/-! ## Sparsity -/

/-- The dictionary built by build_sparsity_dict, with the three sub-dictionaries
modelled as association lists in insertion order. -/
structure SparsityDict where
  transforms : List (String × List ℕ)
  dh_chains : List (String × List (List ℕ))
  rectified_cameras : List (String × ℕ)
deriving DecidableEq

/-- Translation of build_sparsity_dict: a six-element all-ones mask for every
transform name in the concatenation of before_chain and after_chain, the
replicated four-element link masks under the chain id, and the baseline shift
flag under the sensor id.  The assert comparing the link count with the length
of the joint-state vector is modelled by returning none on mismatch. -/
def build_sparsity_dict (s : CameraChainSensor) (v : RobotParamsView) :
    Option SparsityDict :=
  let transforms := (s.config.chain.before_chain ++ s.config.chain.after_chain).map
      (fun name => (name, [1, 1, 1, 1, 1, 1]))
  let num_links := v.numLinks
  if num_links = s.mChain.positions.length then
    some { transforms := transforms
         , dh_chains := [(s.config.chain.chain_id, List.replicate num_links [1, 1, 1, 1])]
         , rectified_cameras := [(s.sensor_id, 1)] }
  else none

/-! ## List helper lemmas -/

lemma getD_range_map {α : Type} (n : ℕ) (g : ℕ → α) (i : ℕ) (d : α) :
    ((List.range n).map g).getD i d = if i < n then g i else d := by
  rw [List.getD_eq_getElem?_getD, List.getElem?_map]
  by_cases h : i < n
  · rw [List.getElem?_range h]
    simp [h]
  · rw [List.getElem?_eq_none (by simpa using Nat.le_of_not_lt h)]
    simp [h]

lemma mem_zipWith_of {α β γ : Type} {f : α → β → γ} {c : γ} :
    ∀ {as : List α} {bs : List β}, c ∈ List.zipWith f as bs →
      ∃ a ∈ as, ∃ b ∈ bs, c = f a b := by
  intro as
  induction as with
  | nil => intro bs h; simp [List.zipWith] at h
  | cons a t ih =>
    intro bs h
    cases bs with
    | nil => simp [List.zipWith] at h
    | cons b tb =>
      simp only [List.zipWith, List.mem_cons] at h
      rcases h with h | h
      · exact ⟨a, by simp, b, by simp, h⟩
      · obtain ⟨a', ha, b', hb, hc⟩ := ih h
        exact ⟨a', by simp [ha], b', by simp [hb], hc⟩

lemma flatten_pairs_length (L : Mat) (h : ∀ r ∈ L, r.length = 2) :
    (npFlatten L).length = L.length * 2 := by
  induction L with
  | nil => simp [npFlatten]
  | cons r t ih =>
    have hr : r.length = 2 := h r (by simp)
    have ht : (npFlatten t).length = t.length * 2 :=
      ih (fun x hx => h x (by simp [hx]))
    simp only [npFlatten, List.flatten_cons, List.length_append, List.length_cons] at *
    rw [hr, ht]
    ring

lemma flatten_pairs_getD (L : Mat) (h : ∀ r ∈ L, r.length = 2) :
    ∀ (i j : ℕ), i < L.length → j < 2 →
      (npFlatten L).getD (2 * i + j) 0 = (L.getD i []).getD j 0 := by
  induction L with
  | nil => intro i j hi _; simp at hi
  | cons r t ih =>
    intro i j hi hj
    have hr : r.length = 2 := h r (by simp)
    cases i with
    | zero =>
      simp only [npFlatten, List.flatten_cons, Nat.mul_zero, Nat.zero_add, List.getD_cons_zero]
      exact List.getD_append _ _ _ _ (by omega)
    | succ i =>
      have hstep : 2 * (i + 1) + j - r.length = 2 * i + j := by omega
      simp only [npFlatten, List.flatten_cons, List.getD_cons_succ]
      rw [List.getD_append_right _ _ _ _ (by omega), hstep]
      exact ih (fun x hx => h x (by simp [hx])) i j (by simpa using hi) hj

lemma getD_zipWith_mat {α : Type} [Inhabited α] (f : List α → List α → List α)
    (a b : List (List α)) (i : ℕ) (hia : i < a.length) (hib : i < b.length) :
    (List.zipWith f a b).getD i [] = f (a.getD i []) (b.getD i []) := by
  rw [List.getD_eq_getElem?_getD, List.getElem?_zipWith,
    List.getElem?_eq_getElem hia, List.getElem?_eq_getElem hib]
  rw [List.getD_eq_getElem?_getD, List.getD_eq_getElem?_getD,
    List.getElem?_eq_getElem hia, List.getElem?_eq_getElem hib]
  rfl

lemma getD_map_points {α β : Type} (g : α → List β) (l : List α) (i : ℕ)
    (hi : i < l.length) (d : α) :
    ((l.map g).getD i []) = g (l.getD i d) := by
  rw [List.getD_eq_getElem?_getD, List.getElem?_map, List.getElem?_eq_getElem hi,
    List.getD_eq_getElem?_getD, List.getElem?_eq_getElem hi]
  rfl

lemma length_eq_two_pair {α : Type} {l : List α} (h : l.length = 2) :
    ∃ a b, l = [a, b] := by
  match l, h with
  | [a, b], _ => exact ⟨a, b, rfl⟩

/-! ## Residual claims -/

/-- C8: the assert checks of compute_residual fail exactly when the observed or
the expected pixel matrix does not have exactly 2 columns (the row-count check
compares a value with itself and never restricts anything), and a failing
assert makes compute_residual abort rather than return a residual. -/
theorem residual_asserts_column_contract (s : CameraChainSensor) (v : RobotParamsView)
    (target_pts : Mat) :
    (residualAsserts (get_measurement s) (compute_expected s v target_pts) = true
      ↔ npCols (get_measurement s) = 2 ∧ npCols (compute_expected s v target_pts) = 2)
    ∧ (residualAsserts (get_measurement s) (compute_expected s v target_pts) = false →
        compute_residual s v target_pts = none) := by
  constructor
  · simp [residualAsserts]
  · intro hfail
    simp only [compute_residual, hfail, Bool.false_eq_true, if_false]

/-- Witness for C8 at a concrete sensor whose expected matrix has one column:
the asserts reject it and compute_residual returns nothing. -/
theorem residual_asserts_column_contract_witness :
    compute_residual
      { config := { camera_id := "cam0"
                  , chain := { chain_id := "ch0", before_chain := [], after_chain := [] } }
      , mCam := { camera_id := "cam0", image_points := [⟨1, 2⟩] }
      , mChain := { chain_id := "ch0", positions := [] } }
      { covJointAngles := [], numLinks := 0, covU := 1, covV := 1
      , computeExpectedFn := fun _ _ => [[5]] }
      [] = none :=
  (residual_asserts_column_contract _ _ _).2 (by decide)

/-- C10: whenever the observed and expected matrices both have exactly 2
columns, all three assert checks of compute_residual pass even when the two
matrices have different row counts: the third check compares the observed row
count with itself, so a point-count mismatch is never detected. -/
theorem residual_asserts_ignore_row_mismatch (z_mat h_mat : Mat)
    (hz : npCols z_mat = 2) (hh : npCols h_mat = 2)
    (_hrows : npRows z_mat ≠ npRows h_mat) :
    residualAsserts z_mat h_mat = true := by
  simp [residualAsserts, hz, hh]

/-- Witness for C10: a one-row observed matrix against a two-row expected
matrix, both of 2 columns, passes all the asserts. -/
theorem residual_asserts_ignore_row_mismatch_witness :
    residualAsserts [[1, 2]] [[1, 2], [3, 4]] = true :=
  residual_asserts_ignore_row_mismatch [[1, 2]] [[1, 2], [3, 4]]
    (by decide) (by decide) (by decide)

lemma getD_mem_of_lt {α : Type} (l : List α) (i : ℕ) (hi : i < l.length) (d : α) :
    l.getD i d ∈ l := by
  rw [List.getD_eq_getElem?_getD, List.getElem?_eq_getElem hi]
  exact List.getElem_mem hi

/-- C1: for a bound camera observation of N image points and an expected pixel
matrix of N rows and 2 columns, compute_residual returns a flat sequence of
length get_residual_length, that is 2 N, whose entry 2 i is the x component of
expected minus observed at point i and whose entry 2 i + 1 is the y component,
so the flattening is point-major with x before y.  The positivity hypothesis
on N reflects the stated column precondition: with no image points the
observed matrix has no columns and the assert aborts instead. -/
theorem residual_flatten_order (s : CameraChainSensor) (v : RobotParamsView) (target_pts : Mat)
    (hN : 1 ≤ s.mCam.image_points.length)
    (hrows : (compute_expected s v target_pts).length = s.mCam.image_points.length)
    (hcols : ∀ r ∈ compute_expected s v target_pts, r.length = 2) :
    ∃ res, compute_residual s v target_pts = some res ∧
      res.length = get_residual_length s ∧
      ∀ i, i < s.mCam.image_points.length →
        res.getD (2 * i) 0
          = ((compute_expected s v target_pts).getD i []).getD 0 0
            - (s.mCam.image_points.getD i ⟨0, 0⟩).x ∧
        res.getD (2 * i + 1) 0
          = ((compute_expected s v target_pts).getD i []).getD 1 0
            - (s.mCam.image_points.getD i ⟨0, 0⟩).y := by
  obtain ⟨p0, tpts, hp⟩ : ∃ p0 t, s.mCam.image_points = p0 :: t := by
    cases hcase : s.mCam.image_points with
    | nil => rw [hcase] at hN; simp at hN
    | cons a t => exact ⟨a, t, rfl⟩
  have hzcols : npCols (get_measurement s) = 2 := by
    simp [get_measurement, npCols, hp]
  have hhcols : npCols (compute_expected s v target_pts) = 2 := by
    obtain ⟨r0, tr, hr⟩ : ∃ r0 tr, compute_expected s v target_pts = r0 :: tr := by
      cases hcase : compute_expected s v target_pts with
      | nil => rw [hcase] at hrows; rw [hp] at hrows; simp at hrows
      | cons a t => exact ⟨a, t, rfl⟩
    have h2 : r0.length = 2 := hcols r0 (by rw [hr]; simp)
    simp [npCols, hr, h2]
  have hassert : residualAsserts (get_measurement s) (compute_expected s v target_pts) = true := by
    simp [residualAsserts, hzcols, hhcols]
  have hzlen : (get_measurement s).length = s.mCam.image_points.length := by
    simp [get_measurement]
  have hsub : npSub (compute_expected s v target_pts) (get_measurement s)
      = some (List.zipWith (fun ra rb => List.zipWith (fun x y => x - y) ra rb)
          (compute_expected s v target_pts) (get_measurement s)) := by
    rw [npSub, if_pos (by rw [hrows, hzlen])]
  have hres : compute_residual s v target_pts
      = (npSub (compute_expected s v target_pts) (get_measurement s)).map npFlatten := by
    simp only [compute_residual, hassert, if_true]
  set M := List.zipWith (fun ra rb => List.zipWith (fun x y => x - y) ra rb)
      (compute_expected s v target_pts) (get_measurement s) with hM
  have hMlen : M.length = s.mCam.image_points.length := by
    rw [hM, List.length_zipWith, hrows, hzlen]
    omega
  have hMrows : ∀ r ∈ M, r.length = 2 := by
    intro r hr
    obtain ⟨a, ha, b, hb, rfl⟩ := mem_zipWith_of hr
    have ha2 := hcols a ha
    have hb2 : b.length = 2 := by
      simp only [get_measurement, List.mem_map] at hb
      obtain ⟨p, _, rfl⟩ := hb
      rfl
    rw [List.length_zipWith, ha2, hb2]
    simp
  refine ⟨npFlatten M, ?_, ?_, ?_⟩
  · rw [hres, hsub]
    rfl
  · rw [flatten_pairs_length M hMrows, hMlen]
    rfl
  · intro i hi
    have hiM : i < M.length := by rw [hMlen]; exact hi
    have hih : i < (compute_expected s v target_pts).length := by rw [hrows]; exact hi
    have hiz : i < (get_measurement s).length := by rw [hzlen]; exact hi
    have hMget : M.getD i [] = List.zipWith (fun x y => x - y)
        ((compute_expected s v target_pts).getD i []) ((get_measurement s).getD i []) := by
      rw [hM]
      exact getD_zipWith_mat _ _ _ i hih hiz
    have hzget : (get_measurement s).getD i []
        = [(s.mCam.image_points.getD i ⟨0, 0⟩).x, (s.mCam.image_points.getD i ⟨0, 0⟩).y] := by
      simp only [get_measurement]
      rw [getD_map_points (fun p : ImagePoint => [p.x, p.y]) _ i hi ⟨0, 0⟩]
    obtain ⟨a, b, hab⟩ := length_eq_two_pair
      (hcols _ (getD_mem_of_lt (compute_expected s v target_pts) i hih []))
    constructor
    · have hfl := flatten_pairs_getD M hMrows i 0 hiM (by omega)
      rw [Nat.add_zero] at hfl
      rw [hfl, hMget, hab, hzget]
      rfl
    · have hfl := flatten_pairs_getD M hMrows i 1 hiM (by omega)
      rw [hfl, hMget, hab, hzget]
      rfl

/-- Witness sensor data: two image points bound to a one-joint chain. -/
def wPts : List ImagePoint := [⟨10, 20⟩, ⟨30, 40⟩]

/-- Witness configuration entry. -/
def wConfig : SensorConfig :=
  { camera_id := "cam1"
  , chain := { chain_id := "armL", before_chain := ["mount"], after_chain := [] } }

/-- Witness sensor with the given joint positions. -/
def wSensor (pos : List ℚ) : CameraChainSensor :=
  { config := wConfig
  , mCam := { camera_id := "cam1", image_points := wPts }
  , mChain := { chain_id := "armL", positions := pos } }

/-- Witness expected-pixel function: a linear function of the first joint. -/
def wFn (p : List ℚ) (_target : Mat) : Mat :=
  [[p.getD 0 0, 2 * p.getD 0 0], [3 * p.getD 0 0, 4 * p.getD 0 0]]

/-- Witness parameter view with one joint variance and pixel variances 5, 7. -/
def wView : RobotParamsView :=
  { covJointAngles := [3], numLinks := 1, covU := 5, covV := 7, computeExpectedFn := wFn }

/-- Witness for C1 at the concrete one-joint sensor. -/
theorem residual_flatten_order_witness :
    ∃ res, compute_residual (wSensor [2]) wView [] = some res ∧
      res.length = get_residual_length (wSensor [2]) ∧
      ∀ i, i < (wSensor [2]).mCam.image_points.length →
        res.getD (2 * i) 0
          = ((compute_expected (wSensor [2]) wView []).getD i []).getD 0 0
            - ((wSensor [2]).mCam.image_points.getD i ⟨0, 0⟩).x ∧
        res.getD (2 * i + 1) 0
          = ((compute_expected (wSensor [2]) wView []).getD i []).getD 1 0
            - ((wSensor [2]).mCam.image_points.getD i ⟨0, 0⟩).y :=
  residual_flatten_order (wSensor [2]) wView [] (by decide) (by decide) (by decide)

lemma zip_sub_self_flatten (z : Mat) (hz : ∀ r ∈ z, r.length = 2) :
    npFlatten (List.zipWith (fun ra rb => List.zipWith (fun x y => x - y) ra rb) z z)
      = List.replicate (z.length * 2) (0 : ℚ) := by
  induction z with
  | nil => simp [npFlatten]
  | cons r t ih =>
    obtain ⟨a, b, rfl⟩ := length_eq_two_pair (hz r (by simp))
    have ht := ih (fun x hx => hz x (by simp [hx]))
    have hlen : (t.length + 1) * 2 = t.length * 2 + 1 + 1 := by ring
    simp only [List.zipWith, npFlatten, List.flatten_cons, List.length_cons] at *
    rw [ht, hlen, List.replicate_succ, List.replicate_succ]
    simp

/-- C7: in an exact-fit scenario, where the expected pixel matrix coincides
with the observed measurement matrix, compute_residual returns the zero vector
of length get_residual_length.  The observation is required to be nonempty so
that the two-column assert can pass. -/
theorem residual_exact_fit_zero (s : CameraChainSensor) (v : RobotParamsView) (target_pts : Mat)
    (hne : s.mCam.image_points ≠ [])
    (hfit : compute_expected s v target_pts = get_measurement s) :
    compute_residual s v target_pts
      = some (List.replicate (get_residual_length s) 0) := by
  obtain ⟨p0, tpts, hp⟩ : ∃ p0 t, s.mCam.image_points = p0 :: t := by
    cases hcase : s.mCam.image_points with
    | nil => exact absurd hcase hne
    | cons a t => exact ⟨a, t, rfl⟩
  have hzcols : npCols (get_measurement s) = 2 := by
    simp [get_measurement, npCols, hp]
  have hzrows : ∀ r ∈ get_measurement s, r.length = 2 := by
    intro r hr
    simp only [get_measurement, List.mem_map] at hr
    obtain ⟨p, _, rfl⟩ := hr
    rfl
  have hassert : residualAsserts (get_measurement s) (get_measurement s) = true := by
    simp [residualAsserts, hzcols]
  have hsub : npSub (get_measurement s) (get_measurement s)
      = some (List.zipWith (fun ra rb => List.zipWith (fun x y => x - y) ra rb)
          (get_measurement s) (get_measurement s)) := by
    rw [npSub, if_pos rfl]
  have hlen : (get_measurement s).length = s.mCam.image_points.length := by
    simp [get_measurement]
  have hreslen : get_residual_length s = (get_measurement s).length * 2 := by
    rw [hlen]
    rfl
  simp only [compute_residual, hfit, hassert, if_true, hsub, Option.map_some']
  rw [zip_sub_self_flatten _ hzrows, hreslen]

/-- Witness expected-pixel function reproducing the witness measurement. -/
def wFnExact (_p : List ℚ) (_target : Mat) : Mat := [[10, 20], [30, 40]]

/-- Witness parameter view whose expected pixels equal the observation. -/
def wViewExact : RobotParamsView :=
  { covJointAngles := [3], numLinks := 1, covU := 5, covV := 7, computeExpectedFn := wFnExact }

/-- Witness for C7: the exact-fit view yields the zero residual. -/
theorem residual_exact_fit_zero_witness :
    compute_residual (wSensor [2]) wViewExact []
      = some (List.replicate (get_residual_length (wSensor [2])) 0) :=
  residual_exact_fit_zero (wSensor [2]) wViewExact [] (by decide) (by decide)

/-! ## Covariance claims -/

lemma covFold_stored (v : RobotParamsView) (target_pts : Mat) (f0 : List ℚ) :
    ∀ (l : List ℕ) (acc : CovLoopState × List (List ℚ)),
      ((l.foldl (covLoopStep v target_pts f0) acc).1).stored = acc.1.stored := by
  intro l
  induction l with
  | nil => intro acc; rfl
  | cons i t ih =>
    intro acc
    rw [List.foldl_cons, ih]
    rfl

lemma covFold_length (v : RobotParamsView) (target_pts : Mat) (f0 : List ℚ) :
    ∀ (l : List ℕ) (acc : CovLoopState × List (List ℚ)),
      ((l.foldl (covLoopStep v target_pts f0) acc).2).length = acc.2.length + l.length := by
  intro l
  induction l with
  | nil => intro acc; simp
  | cons i t ih =>
    intro acc
    rw [List.foldl_cons, ih]
    simp [covLoopStep]
    omega

lemma npCols_range_map (n : ℕ) (hn : 0 < n) (f : ℕ → List ℚ) :
    npCols ((List.range n).map f) = (f 0).length := by
  obtain ⟨m, rfl⟩ : ∃ m, n = m + 1 := ⟨n - 1, by omega⟩
  rw [List.range_succ_eq_map]
  simp [npCols]

lemma npCols_npTranspose (m : Mat) :
    npCols (npTranspose m) = if npCols m = 0 then 0 else m.length := by
  rcases hc : npCols m with _ | k
  · rw [npTranspose, hc]
    simp [npCols]
  · rw [npTranspose, hc, npCols_range_map (k + 1) (by omega)]
    simp [npCol]

lemma chainCovResult_eq_none {Jt : Mat} (hJt : Jt.length ≠ 1) (c : List ℚ) (u v : ℚ) :
    chainCovResult Jt c u v = none := by
  have hcols : npCols (npTranspose Jt) ≠ 1 := by
    rw [npCols_npTranspose]
    by_cases h0 : npCols Jt = 0 <;> simp [h0, hJt]
  rw [chainCovResult]
  have hmul : npMul (npTranspose Jt) [npDiagOfMat (npDiagOfList c)] = none := by
    rw [npMul, if_neg]
    simpa using hcols
  simp only [hmul]

/-- C6: a chain whose joint-state vector is empty makes compute_cov raise a
numpy shape error instead of returning the camera-noise diagonal: the Jacobian
has no rows, so the transpose has no columns while the numpy matrix of the
twice-applied diag always has one row, and the product is rejected. -/
theorem cov_zero_joints_raises (s : CameraChainSensor) (v : RobotParamsView) (target_pts : Mat)
    (h : s.mChain.positions = []) :
    compute_cov s v target_pts = none := by
  rw [compute_cov, compute_cov_run]
  simp only [h, List.length_nil, List.range_zero, List.foldl_nil]
  exact chainCovResult_eq_none (by simp) _ _ _

/-- Witness for C6: the concrete zero-joint sensor also raises. -/
theorem cov_zero_joints_raises_witness :
    compute_cov (wSensor []) wView [] = none :=
  cov_zero_joints_raises (wSensor []) wView [] (by decide)

/-- C2: for every chain with at least two joints, compute_cov raises a numpy
shape error instead of returning the chain-induced covariance plus the camera
noise: the source applies diag to the already diagonal cov_angles matrix, so
the middle factor of the triple product is a matrix of a single row, which
cannot be multiplied against the transposed Jacobian of two or more columns. -/
theorem cov_double_diag_raises (s : CameraChainSensor) (v : RobotParamsView) (target_pts : Mat)
    (h : 2 ≤ s.mChain.positions.length) :
    compute_cov s v target_pts = none := by
  rw [compute_cov, compute_cov_run]
  apply chainCovResult_eq_none
  rw [covFold_length]
  simp
  omega

/-- Witness for C2: the concrete two-joint sensor raises. -/
theorem cov_double_diag_raises_witness :
    compute_cov (wSensor [2, 5]) wView [] = none :=
  cov_double_diag_raises (wSensor [2, 5]) wView [] (by decide)

/-- C9: compute_cov never mutates the bound chain observation: the position
vector stored in the observation is the same after the call as before, because
every finite-difference perturbation is applied to the scratch copy.  The
statement covers the runs that raise as well as the runs that return. -/
theorem cov_preserves_chain_observation (s : CameraChainSensor) (v : RobotParamsView)
    (target_pts : Mat) :
    (compute_cov_run s v target_pts).1.stored = s.mChain.positions := by
  rw [compute_cov_run]
  exact covFold_stored _ _ _ _ _

/-- Symmetry of a matrix, read through defaulted indexing: entry (i, j) equals
entry (j, i) for all index pairs, out-of-range entries reading as zero. -/
def symmMat (m : Mat) : Prop :=
  ∀ i j, (m.getD i []).getD j 0 = (m.getD j []).getD i 0

lemma dot_single (x y : ℚ) : dotProd [x] [y] = x * y := by
  simp [dotProd]

lemma npAdd_range_form (n : ℕ) (f g : ℕ → ℕ → ℚ) :
    npAdd ((List.range n).map (fun i => (List.range n).map (fun j => f i j)))
        ((List.range n).map (fun i => (List.range n).map (fun j => g i j)))
      = (List.range n).map (fun i => (List.range n).map (fun j => f i j + g i j)) := by
  simp only [npAdd, List.zipWith_map, List.zipWith_same]

lemma symm_range_form (n : ℕ) (f : ℕ → ℕ → ℚ) (hf : ∀ i j, f i j = f j i) :
    symmMat ((List.range n).map (fun i => (List.range n).map (fun j => f i j))) := by
  intro i j
  rw [getD_range_map, getD_range_map]
  by_cases hi : i < n <;> by_cases hj : j < n
  · rw [if_pos hi, if_pos hj, getD_range_map, getD_range_map, if_pos hj, if_pos hi]
    exact hf i j
  · rw [if_pos hi, if_neg hj, getD_range_map, if_neg hj]
    simp
  · rw [if_neg hi, if_pos hj, getD_range_map, if_neg hi]
    simp
  · rw [if_neg hi, if_neg hj]
    simp

lemma chainCovResult_some_symm {Jt : Mat} {c : List ℚ} {u v : ℚ} {cov : Mat}
    (h : chainCovResult Jt c u v = some cov) : symmMat cov := by
  simp only [chainCovResult] at h
  set dvec := npDiagOfMat (npDiagOfList c) with hdvec
  split at h
  · exact absurd h (by simp)
  next a hAB =>
    split at h
    · exact absurd h (by simp)
    next cc hAJ =>
      have hc1 : npCols (npTranspose Jt) = 1 := by
        by_contra hne
        rw [npMul, if_neg (by simpa using hne)] at hAB
        exact absurd hAB (by simp)
      have hJt1 : Jt.length = 1 ∧ npCols Jt ≠ 0 := by
        rw [npCols_npTranspose] at hc1
        by_cases h0 : npCols Jt = 0
        · rw [if_pos h0] at hc1
          omega
        · rw [if_neg h0] at hc1
          exact ⟨hc1, h0⟩
      obtain ⟨row0, rfl⟩ := List.length_eq_one.mp hJt1.1
      have hL : 0 < row0.length := by
        have := hJt1.2
        simp only [npCols, List.headD_cons] at this
        omega
      have ha : a = (List.range row0.length).map (fun r =>
          (List.range dvec.length).map (fun j =>
            dotProd (npCol [row0] r) (npCol [dvec] j))) := by
        rw [npMul, if_pos (by simpa using hc1)] at hAB
        have := Option.some_inj.mp hAB
        rw [← this, npTranspose, List.map_map]
        rfl
      have hcolsa : npCols a = dvec.length := by
        rw [ha, npCols_range_map _ hL]
        simp
      have hk1 : dvec.length = 1 := by
        by_contra hne
        rw [npMul, if_neg (by simp [hcolsa]; exact hne)] at hAJ
        exact absurd hAJ (by simp)
      obtain ⟨d0, hd⟩ := List.length_eq_one.mp hk1
      rw [hd] at ha
      have hcc : cc = (List.range row0.length).map (fun r =>
          (List.range row0.length).map (fun j =>
            row0.getD r 0 * d0 * row0.getD j 0)) := by
        rw [npMul, if_pos (by simp [hcolsa, hk1])] at hAJ
        have := Option.some_inj.mp hAJ
        rw [← this, ha, List.map_map]
        apply List.map_congr_left
        intro r _
        simp [Function.comp, List.range_succ, npCol, dot_single, npCols]
      have hccrows : npRows cc = row0.length := by
        rw [hcc]
        simp [npRows]
      have hcccols : npCols cc = row0.length := by
        rw [hcc, npCols_range_map _ hL]
        simp
      obtain rfl : cov = npAdd cc (camNoiseMat (npRows cc) (npCols cc) u v) :=
        (Option.some_inj.mp h).symm
      rw [hccrows, hcccols, hcc, camNoiseMat, npAdd_range_form]
      apply symm_range_form
      intro i j
      have hcam : (if i = j ∧ i < 2 * (row0.length / 2) then (if i % 2 = 0 then u else v) else 0)
          = (if j = i ∧ j < 2 * (row0.length / 2) then (if j % 2 = 0 then u else v) else 0) := by
        by_cases hij : i = j
        · subst hij
          rfl
        · rw [if_neg (by tauto), if_neg (by tauto)]
      rw [hcam]
      ring_nf

/-- C5: whenever compute_cov returns a covariance matrix, that matrix is
symmetric: the chain term that survives the product stage is an outer product
scaled by the single joint variance, and the camera noise term is diagonal. -/
theorem cov_symmetric (s : CameraChainSensor) (v : RobotParamsView) (target_pts : Mat)
    (cov : Mat) (h : compute_cov s v target_pts = some cov) : symmMat cov := by
  simp only [compute_cov, compute_cov_run] at h
  exact chainCovResult_some_symm h

/-- Covariance value returned at the witness input of the symmetry claim. -/
def wCov : Mat :=
  [[8, 6, 9, 12], [6, 19, 18, 24], [9, 18, 32, 36], [12, 24, 36, 55]]

/-- Witness for C5: the covariance of the concrete one-joint sensor is
symmetric. -/
theorem cov_symmetric_witness : symmMat wCov :=
  cov_symmetric (wSensor [2]) wView [] wCov (by
    norm_num [compute_cov, compute_cov_run, covLoopStep, chainCovResult, npMul, npCol,
      npCols, npRows, npTranspose, npDiagOfList, npDiagOfMat, npFlatten, dotProd, npAdd,
      camNoiseMat, epsCov, wSensor, wView, wFn, wCov, wConfig, wPts, List.range_succ])

/-! ## Bundler and sparsity claims -/

lemma find?_beq_isSome {α : Type} (l : List α) (f : α → String) (a : String) :
    (l.find? (fun x => f x == a)).isSome = (l.map f).contains a := by
  induction l with
  | nil => rfl
  | cons x t ih =>
    by_cases hx : f x = a
    · simp [List.find?_cons, hx]
    · simp only [List.find?_cons, List.map_cons, List.contains_cons]
      have hbeq : (f x == a) = false := by simp [hx]
      have hbeq2 : (a == f x) = false := by simp [Ne.symm hx]
      rw [hbeq, hbeq2, ih]
      simp

/-- C3: build_blocks returns one sensor per catalog entry whose camera id
occurs among the camera observation ids and whose chain id occurs among the
chain observation ids, in catalog order, skipping non-matching entries without
error; every returned sensor binds observations carrying the ids of its
configuration entry. -/
theorem build_blocks_matching (valid_configs : List SensorConfig) (M_robot : RobotMeasurement) :
    ((build_blocks valid_configs M_robot).map (fun s => s.config)
      = valid_configs.filter (fun c =>
          (M_robot.M_cam.map (fun x => x.camera_id)).contains c.camera_id
          && (M_robot.M_chain.map (fun x => x.chain_id)).contains c.chain.chain_id))
    ∧ ∀ s ∈ build_blocks valid_configs M_robot,
        s.mCam.camera_id = s.config.camera_id
          ∧ s.mChain.chain_id = s.config.chain.chain_id := by
  constructor
  · induction valid_configs with
    | nil => rfl
    | cons c t ih =>
      have hcam := find?_beq_isSome M_robot.M_cam (fun x => x.camera_id) c.camera_id
      have hch := find?_beq_isSome M_robot.M_chain (fun x => x.chain_id) c.chain.chain_id
      simp only [build_blocks, List.filterMap_cons] at ih ⊢
      rw [List.filter_cons]
      cases hfc : M_robot.M_cam.find? (fun x => x.camera_id == c.camera_id) with
      | none =>
        rw [hfc] at hcam
        rw [if_neg (by rw [← hcam]; simp)]
        simpa using ih
      | some mc =>
        rw [hfc] at hcam
        cases hfch : M_robot.M_chain.find? (fun x => x.chain_id == c.chain.chain_id) with
        | none =>
          rw [hfch] at hch
          rw [if_neg (by rw [← hcam, ← hch]; simp)]
          simpa using ih
        | some mch =>
          rw [hfch] at hch
          rw [if_pos (by rw [← hcam, ← hch]; simp)]
          simpa using ih
  · intro s hs
    simp only [build_blocks, List.mem_filterMap] at hs
    obtain ⟨c, _, hc⟩ := hs
    cases hfc : M_robot.M_cam.find? (fun x => x.camera_id == c.camera_id) with
    | none => rw [hfc] at hc; simp at hc
    | some mc =>
      rw [hfc] at hc
      cases hfch : M_robot.M_chain.find? (fun x => x.chain_id == c.chain.chain_id) with
      | none => rw [hfch] at hc; simp at hc
      | some mch =>
        rw [hfch] at hc
        have h1 := List.find?_some hfc
        have h2 := List.find?_some hfch
        obtain rfl : (⟨c, mc, mch⟩ : CameraChainSensor) = s := by simpa using hc
        exact ⟨by simpa using h1, by simpa using h2⟩

/-- Witness catalog for C3, with one matching and one non-matching entry. -/
def wCatalog : List SensorConfig :=
  [wConfig, { camera_id := "cam2"
            , chain := { chain_id := "armR", before_chain := [], after_chain := [] } }]

/-- Witness measurement for C3 providing only the cam1 and armL observations. -/
def wMeasurement : RobotMeasurement :=
  { M_cam := [{ camera_id := "cam1", image_points := wPts }]
  , M_chain := [{ chain_id := "armL", positions := [1] }] }

/-- Witness for C3 at the concrete catalog and measurement. -/
theorem build_blocks_matching_witness :
    ((build_blocks wCatalog wMeasurement).map (fun s => s.config)
      = wCatalog.filter (fun c =>
          (wMeasurement.M_cam.map (fun x => x.camera_id)).contains c.camera_id
          && (wMeasurement.M_chain.map (fun x => x.chain_id)).contains c.chain.chain_id))
    ∧ ∀ s ∈ build_blocks wCatalog wMeasurement,
        s.mCam.camera_id = s.config.camera_id
          ∧ s.mChain.chain_id = s.config.chain.chain_id :=
  build_blocks_matching wCatalog wMeasurement

lemma lookup_map_const {β : Type} (msk : β) :
    ∀ (names : List String) (name : String), name ∈ names →
      (names.map (fun n => (n, msk))).lookup name = some msk := by
  intro names
  induction names with
  | nil => intro name h; simp at h
  | cons n t ih =>
    intro name h
    rw [List.map_cons, List.lookup_cons]
    by_cases hn : name = n
    · simp [hn]
    · have hbeq : (name == n) = false := by simp [hn]
      rw [hbeq]
      rcases List.mem_cons.mp h with h0 | h0
      · exact absurd h0 hn
      · exact ih name h0

/-- C4: when the link count of the chain equals the length of the bound
joint-state vector, build_sparsity_dict returns a dictionary that maps every
transform name of the concatenated before and after chain lists to the
six-element all-ones mask, maps the chain id to exactly num_links four-element
all-ones link masks, and maps the sensor camera id to the baseline shift flag
set to one; on a link-count mismatch the assert fails and nothing is
returned. -/
theorem sparsity_dict_contents (s : CameraChainSensor) (v : RobotParamsView) :
    (v.numLinks = s.mChain.positions.length →
      ∃ d, build_sparsity_dict s v = some d ∧
        (∀ name ∈ s.config.chain.before_chain ++ s.config.chain.after_chain,
          d.transforms.lookup name = some [1, 1, 1, 1, 1, 1]) ∧
        d.dh_chains = [(s.config.chain.chain_id, List.replicate v.numLinks [1, 1, 1, 1])] ∧
        d.rectified_cameras = [(s.sensor_id, 1)])
    ∧ (v.numLinks ≠ s.mChain.positions.length → build_sparsity_dict s v = none) := by
  constructor
  · intro hlink
    have hd : build_sparsity_dict s v = some
        { transforms :=
            (s.config.chain.before_chain ++ s.config.chain.after_chain).map
              (fun name => (name, [1, 1, 1, 1, 1, 1]))
        , dh_chains := [(s.config.chain.chain_id, List.replicate v.numLinks [1, 1, 1, 1])]
        , rectified_cameras := [(s.sensor_id, 1)] } := by
      rw [build_sparsity_dict, if_pos hlink]
    refine ⟨_, hd, ?_, rfl, rfl⟩
    intro name hmem
    exact lookup_map_const _ _ name hmem
  · intro hlink
    rw [build_sparsity_dict, if_neg hlink]

/-- Witness sensor for C4: three links, three joint positions, matching the
three-link example of the specification. -/
def wSensor3 : CameraChainSensor :=
  { config := wConfig
  , mCam := { camera_id := "cam1", image_points := wPts }
  , mChain := { chain_id := "armL", positions := [0, 0, 0] } }

/-- Witness parameter view for C4 with three links. -/
def wView3 : RobotParamsView :=
  { covJointAngles := [1, 1, 1], numLinks := 3, covU := 5, covV := 7
  , computeExpectedFn := wFn }

/-- Witness for C4 at the three-link sensor. -/
theorem sparsity_dict_contents_witness :
    ∃ d, build_sparsity_dict wSensor3 wView3 = some d ∧
      (∀ name ∈ wSensor3.config.chain.before_chain ++ wSensor3.config.chain.after_chain,
        d.transforms.lookup name = some [1, 1, 1, 1, 1, 1]) ∧
      d.dh_chains = [(wSensor3.config.chain.chain_id,
        List.replicate wView3.numLinks [1, 1, 1, 1])] ∧
      d.rectified_cameras = [(wSensor3.sensor_id, 1)] :=
  (sparsity_dict_contents wSensor3 wView3).1 (by decide)

end CameraPose
